import Mathlib

/-!
Shallow embedding of the audio-analysis core of the repository
(`analyse.py`, class `AudioAnalyser`, and the analysis worker of `main.py`),
together with theorems settling the specification claims.

Library primitives (librosa decoding, tempo estimation, chromagram
computation, beat tracking, onset strength) are external to the repository
and are treated as inputs: each embedded function receives the values those
primitives return.  Sample and energy values are modelled as rationals;
Pearson correlation coefficients, which involve a square root, live in the
reals.
-/

/-! ## Key estimation (`AudioAnalyser.estimate_key`, `analyse.py` lines 69-101) -/

/-- Pitch class names, `analyse.py` line 74. -/
def pitches : List String :=
  ["C", "C#", "D", "D#", "E", "F",
   ("F#" : String), "G", "G#", "A", "A#", "B"]

/-- Major key profile, `analyse.py` line 77. -/
def major_profile : Fin 12 → ℚ := ![1, 0, 1, 0, 1, 1, 0, 1, 0, 1, 0, 1]

/-- Minor key profile, `analyse.py` line 78. -/
def minor_profile : Fin 12 → ℚ := ![1, 0, 1, 1, 0, 1, 0, 1, 1, 0, 1, 0]

/-- Arithmetic mean of a 12-vector, as computed inside `np.corrcoef`. -/
def meanQ (x : Fin 12 → ℚ) : ℚ := (∑ j, x j) / 12

/-- Sample covariance of two 12-vectors with the `np.cov` normalisation
`1/(n-1)`.  `np.corrcoef(x, y)[0, 1]` equals
`covQ x y / (sqrt (covQ x x) * sqrt (covQ y y))`. -/
def covQ (x y : Fin 12 → ℚ) : ℚ :=
  (∑ j, (x j - meanQ x) * (y j - meanQ y)) / 11

/-- `np.roll p i`: cyclic right rotation by `i`,
`(roll p i) j = p ((j - i) mod 12)`. -/
def roll (p : Fin 12 → ℚ) (i : ℕ) : Fin 12 → ℚ := fun j => p (j - (i : Fin 12))

/-- Pearson correlation coefficient `np.corrcoef(x, y)[0, 1]`.
When `covQ x x = 0` the floating-point value is NaN; every profile has
variance `35/132 ≠ 0`, so either all 24 candidate scores are NaN (silent
input) or none is.  Under the Mathlib division-by-zero convention the
all-NaN score list is modelled as the all-zero list, and `np.argmax`
(first index, since no NaN comparison succeeds) and `argmaxIdx` agree
there: both return index 0. -/
noncomputable def corrcoef (x y : Fin 12 → ℚ) : ℝ :=
  (covQ x y : ℝ) / (Real.sqrt (covQ x x) * Real.sqrt (covQ y y))

/-- A chromagram: 12 pitch-class rows, each a time series of energies. -/
abbrev Chromagram := Fin 12 → List ℚ

/-- `np.sum(chroma_features, axis=1)`, `analyse.py` line 81. -/
def chromaSum (cf : Chromagram) : Fin 12 → ℚ := fun i => (cf i).sum

/-- Helper for `argmaxIdx`: scans the list keeping the best (index, value)
pair seen so far, updating only on strictly greater values, exactly like
the running maximum of `np.argmax`. -/
def argmaxGo {α : Type} [LinearOrder α] : List α → ℕ → α → ℕ → ℕ × α
  | [], _, bv, bi => (bi, bv)
  | x :: xs, i, bv, bi =>
    if bv < x then argmaxGo xs (i + 1) x i else argmaxGo xs (i + 1) bv bi

/-- `np.argmax`: index of the first occurrence of the maximum
(0 on the empty list). -/
def argmaxIdx {α : Type} [LinearOrder α] : List α → ℕ
  | [] => 0
  | x :: xs => (argmaxGo xs 1 x 0).1

/-- The 24 correlation scores of `analyse.py` lines 83-91, appended in the
interleaved order major(0), minor(0), major(1), minor(1), .... -/
noncomputable def correlations (v : Fin 12 → ℚ) : List ℝ :=
  (List.range 12).flatMap fun i =>
    [corrcoef v (roll major_profile i), corrcoef v (roll minor_profile i)]

/-- `AudioAnalyser.estimate_key`, `analyse.py` lines 69-101: sum the
chromagram over time, take the first index of the maximal correlation,
and format `pitches[index / 2]` with Major for even and Minor for odd
indices. -/
noncomputable def estimate_key (cf : Chromagram) : String :=
  let chroma_sum := chromaSum cf
  let best_match_index := argmaxIdx (correlations chroma_sum)
  let key := pitches.getD (best_match_index / 2) ""
  let mode := if best_match_index % 2 = 0 then "Major" else "Minor"
  key ++ " " ++ mode

/-- Score of interleaved candidate `m`, following the wording of claim C1:
candidate `m` is major with tonic `m / 2` when `m` is even and minor with
tonic `m / 2` when `m` is odd. -/
noncomputable def specScore (v : Fin 12 → ℚ) (m : ℕ) : ℝ :=
  if m % 2 = 0 then corrcoef v (roll major_profile (m / 2))
  else corrcoef v (roll minor_profile (m / 2))

/-- The major-scale root of the diatonic pitch-class set used by interleaved
candidate `m`.  The minor profile is the major profile rolled by 3, so the
minor candidate with tonic `t` uses the set rooted at `(t + 3) mod 12`. -/
def setIdx (m : ℕ) : ℕ := if m % 2 = 0 then m / 2 else (m / 2 + 3) % 12

/-- Correlation of `v` with the diatonic set rooted at `i`. -/
noncomputable def setScore (v : Fin 12 → ℚ) (i : ℕ) : ℝ :=
  corrcoef v (roll major_profile i)

/-- The first interleaved candidate index whose profile is the diatonic set
rooted at `i` (for `i < 12`): the major candidate `2 * i` for `i < 3`,
otherwise the relative-minor candidate `2 * (i - 3) + 1 = 2 * i - 5`. -/
def keyIdxOfSet (i : ℕ) : ℕ := if i < 3 then 2 * i else 2 * i - 5

/-- A chromagram whose aggregate pitch-class vector is constant, hence has
zero variance: the degenerate input of claim C4. -/
def constChroma : Chromagram := fun _ => [1]

/-! ## Time-signature estimation
(`AudioAnalyser.estimate_time_signature`, `analyse.py` lines 103-160) -/

/-- `np.mean` of a list.  On an empty list numpy yields NaN with a warning;
here `0 / 0 = 0`.  All uses below are on nonempty lists. -/
def pymean (l : List ℚ) : ℚ := l.sum / l.length

/-- The Python list expression `l[a:b]` for nonnegative clamped bounds. -/
def pySlice (l : List ℚ) (a b : ℕ) : List ℚ := (l.drop a).take (b - a)

/-- `np.diff` of the beat frame list; the source only uses its length. -/
def npdiff (l : List ℕ) : List ℤ :=
  (l.zip l.tail).map fun p => (p.2 : ℤ) - (p.1 : ℤ)

/-- Local strength of one beat, `analyse.py` lines 135-140: mean onset
strength over `onset_strength[max(0, bf - 2) : min(len, bf + 2)]`.  The
natural subtraction `bf - 2` is exactly the clamp `max(0, bf - 2)`; the
right endpoint is excluded by Python slicing. -/
def beatStrength (onset_strength : List ℚ) (beat_frame : ℕ) : ℚ :=
  pymean (pySlice onset_strength (beat_frame - 2)
    (min onset_strength.length (beat_frame + 2)))

/-- Downbeat-versus-other strength gap for a candidate meter,
`analyse.py` lines 151-154. -/
def gapAt (beat_strengths : List ℚ) (meter : ℕ) : ℚ :=
  let avg_first_beat := pymean
    (((List.range beat_strengths.length).filter fun i => i % meter == 0).map
      fun i => beat_strengths.getD i 0)
  let avg_other_beats := pymean
    (((List.range beat_strengths.length).filter fun i => i % meter != 0).map
      fun i => beat_strengths.getD i 0)
  avg_first_beat - avg_other_beats

/-- `AudioAnalyser.estimate_time_signature`, `analyse.py` lines 103-160.
`yLoaded` models `self.y is not None`; `onset_strength` and `beats` are the
values returned by the librosa primitives (the `onset_detect` result of
line 113 is computed and never used by the source, so it is omitted). -/
def estimate_time_signature (yLoaded : Bool) (onset_strength : List ℚ)
    (beats : List ℕ) : String :=
  if yLoaded then
    let beat_intervals := npdiff beats
    if beat_intervals.length < 2 then "N/A"
    else
      let beat_strengths := beats.map fun beat_frame =>
        beatStrength onset_strength beat_frame
      if beat_strengths.length < 4 then "4/4"
      else
        let best := [2, 3, 4].foldl
          (fun acc meter =>
            if acc.2 < gapAt beat_strengths meter
            then (meter, gapAt beat_strengths meter) else acc)
          ((4 : ℕ), (0 : ℚ))
        toString best.1 ++ "/4"
  else "N/A"

/-- The meter selection rule as claim C3 words it: the candidate in
`[2, 3, 4]` with the largest gap, ties broken by first occurrence. -/
def claimMeter (beat_strengths : List ℚ) : ℕ :=
  [2, 3, 4].getD
    (argmaxIdx [gapAt beat_strengths 2, gapAt beat_strengths 3,
      gapAt beat_strengths 4]) 0

/-- The amended meter selection rule: the running maximum starts at the
pair `(4, 0)`, so a candidate is selected only when the largest gap is
strictly positive; otherwise the default meter 4 is kept. -/
def claimMeterAmended (beat_strengths : List ℚ) : ℕ :=
  if 0 < max (gapAt beat_strengths 2)
      (max (gapAt beat_strengths 3) (gapAt beat_strengths 4))
  then claimMeter beat_strengths else 4

/-- The beat window as claim C5 words it: mean onset strength over the
symmetric window from `bf - 2` through `bf + 2` inclusive, clamped to the
envelope bounds. -/
def specBeatStrength (onset_strength : List ℚ) (beat_frame : ℕ) : ℚ :=
  pymean (((List.range onset_strength.length).filter fun i =>
    decide (beat_frame - 2 ≤ i) && decide (i ≤ beat_frame + 2)).map
      fun i => onset_strength.getD i 0)

/-- The amended beat window: frames from `bf - 2` up to but excluding
`bf + 2`, clamped to the envelope bounds. -/
def specBeatStrengthHalf (onset_strength : List ℚ) (beat_frame : ℕ) : ℚ :=
  pymean (((List.range onset_strength.length).filter fun i =>
    decide (beat_frame - 2 ≤ i) && decide (i < beat_frame + 2)).map
      fun i => onset_strength.getD i 0)

/-- A constant onset envelope: every beat window has the same mean, so
every candidate meter has gap 0. -/
def flatOnset : List ℚ := [1, 1, 1, 1, 1]

/-- An onset envelope whose energy sits at frame 4: the code window for a
beat at frame 2 is frames 0..3 and misses it, a symmetric window frames
0..4 would include it. -/
def rampOnset : List ℚ := [0, 0, 0, 0, 100]

/-- An onset envelope with all its energy in the first two frames.  With
beats at frames 0, 5, 10, 15 the windows are disjoint and the strengths
are `[4, 0, 0, 0]`, so meter 4 wins with a strictly largest gap. -/
def spikeOnset : List ℚ :=
  [4, 4, 0, 0, 0, 0, 0, 0, 0, 0, 0, 0, 0, 0, 0, 0, 0]

/-! ## Orchestration (`AudioAnalyser.run_analysis`, `analyse.py` lines
162-170, and `AnalysisWorker.run`, `main.py` lines 34-48) -/

/-- The analysis stages of the specification. -/
inductive Stage where
  | load
  | tempo
  | chroma
  | key
  | timesig
deriving DecidableEq

/-- The mutable fields of an `AudioAnalyser` instance. -/
structure AnalyserState where
  y : Option (List ℚ)
  sr : Option ℕ
  bpm : ℚ
  chromagram : Option Chromagram
  time_signature : String

/-- `AudioAnalyser.__init__`, `analyse.py` lines 16-28. -/
def initState : AnalyserState :=
  { y := none, sr := none, bpm := 0, chromagram := none,
    time_signature := "N/A" }

/-- `load_audio`, `analyse.py` lines 30-44.  `loadResult` is the outcome of
`librosa.load`: `none` models a raised exception (missing, unreadable or
unsupported file), in which case the method leaves the state unchanged and
returns `false`. -/
def load_audio (s : AnalyserState) (loadResult : Option (List ℚ × ℕ)) :
    AnalyserState × Bool :=
  match loadResult with
  | some yr => ({ s with y := some yr.1, sr := some yr.2 }, true)
  | none => (s, false)

/-- `extract_bpm`, `analyse.py` lines 46-55.  `tempoVal` is the value of
`librosa.feature.tempo(...)[0]`. -/
def extract_bpm (s : AnalyserState) (tempoVal : ℚ) : AnalyserState :=
  if s.y.isSome then { s with bpm := tempoVal } else s

/-- `extract_chromagram`, `analyse.py` lines 57-67.  `ch` is the value of
`librosa.feature.chroma_stft`. -/
def extract_chromagram (s : AnalyserState) (ch : Chromagram) :
    AnalyserState :=
  if s.y.isSome then { s with chromagram := some ch } else s

/-- `run_analysis`, `analyse.py` lines 162-170: load, then on success
tempo, chromagram and time signature, then printing (no state effect).
`estimate_key` is never invoked here. -/
def run_analysis (s : AnalyserState) (loadResult : Option (List ℚ × ℕ))
    (tempoVal : ℚ) (ch : Chromagram) (onset_strength : List ℚ)
    (beats : List ℕ) : AnalyserState :=
  let r := load_audio s loadResult
  if r.2 then
    let s2 := extract_bpm r.1 tempoVal
    let s3 := extract_chromagram s2 ch
    { s3 with time_signature :=
        estimate_time_signature s3.y.isSome onset_strength beats }
  else r.1

/-- The stages `run_analysis` invokes, in call order, for a successful and
for a failed load. -/
def run_analysis_stages (loadOk : Bool) : List Stage :=
  if loadOk then [Stage.load, Stage.tempo, Stage.chroma, Stage.timesig]
  else [Stage.load]

/-- `AnalysisWorker.run`, `main.py` lines 34-48: the worker performs the
same stages as `run_analysis` and surfaces a load failure as an error
instead of emitting a result object. -/
def worker_run (loadResult : Option (List ℚ × ℕ)) (tempoVal : ℚ)
    (ch : Chromagram) (onset_strength : List ℚ) (beats : List ℕ) :
    Except String AnalyserState :=
  match loadResult with
  | none => Except.error "Could not load the audio file."
  | some _ =>
    Except.ok (run_analysis initState loadResult tempoVal ch onset_strength
      beats)

/-- `MainWindow.analysis_complete`, `main.py` line 253: the key shown to
the user is computed by the caller from the stored chromagram, after the
worker has finished. -/
noncomputable def analysis_complete_key (s : AnalyserState) : Option String :=
  s.chromagram.map estimate_key

/-! ## Properties of `argmaxIdx` -/

/-- Full characterisation of the `argmaxGo` scan: either no element of the
remaining list strictly exceeds the current best value and the current best
pair is returned, or the first occurrence of the maximum of the remaining
list is returned. -/
theorem argmaxGo_spec {α : Type} [LinearOrder α] (d : α) :
    ∀ (l : List α) (i bi : ℕ) (bv : α),
      (argmaxGo l i bv bi = (bi, bv) ∧ ∀ m, m < l.length → l.getD m d ≤ bv) ∨
      (∃ k, k < l.length ∧ argmaxGo l i bv bi = (i + k, l.getD k d) ∧
        bv < l.getD k d ∧
        (∀ m, m < l.length → l.getD m d ≤ l.getD k d) ∧
        (∀ m, m < k → l.getD m d < l.getD k d)) := by
  intro l
  induction l with
  | nil =>
    intro i bi bv
    exact Or.inl ⟨rfl, fun m hm => absurd hm (by simp)⟩
  | cons x xs ih =>
    intro i bi bv
    by_cases hx : bv < x
    · have hgo : argmaxGo (x :: xs) i bv bi = argmaxGo xs (i + 1) x i := by
        simp [argmaxGo, hx]
      rcases ih (i + 1) i x with ⟨heq, hall⟩ | ⟨k, hk, heq, hlt, hmax, hfirst⟩
      · refine Or.inr ⟨0, by simp, ?_, by simpa using hx, ?_, ?_⟩
        · rw [hgo, heq]
          simp
        · intro m hm
          cases m with
          | zero => simp
          | succ m =>
            simp only [List.getD_cons_succ, List.getD_cons_zero]
            exact hall m (by simpa using hm)
        · intro m hm
          omega
      · refine Or.inr ⟨k + 1, by simpa using hk, ?_, ?_, ?_, ?_⟩
        · rw [hgo, heq]
          simp only [List.getD_cons_succ]
          refine Prod.ext ?_ rfl
          simp
          omega
        · simp only [List.getD_cons_succ]
          exact lt_trans hx hlt
        · intro m hm
          cases m with
          | zero =>
            simp only [List.getD_cons_succ, List.getD_cons_zero]
            exact le_of_lt hlt
          | succ m =>
            simp only [List.getD_cons_succ]
            exact hmax m (by simpa using hm)
        · intro m hm
          cases m with
          | zero =>
            simp only [List.getD_cons_succ, List.getD_cons_zero]
            exact hlt
          | succ m =>
            simp only [List.getD_cons_succ]
            exact hfirst m (by omega)
    · have hgo : argmaxGo (x :: xs) i bv bi = argmaxGo xs (i + 1) bv bi := by
        simp [argmaxGo, hx]
      rcases ih (i + 1) bi bv with ⟨heq, hall⟩ | ⟨k, hk, heq, hlt, hmax, hfirst⟩
      · refine Or.inl ⟨by rw [hgo, heq], ?_⟩
        intro m hm
        cases m with
        | zero => simpa using le_of_not_lt hx
        | succ m =>
          simp only [List.getD_cons_succ]
          exact hall m (by simpa using hm)
      · refine Or.inr ⟨k + 1, by simpa using hk, ?_, ?_, ?_, ?_⟩
        · rw [hgo, heq]
          simp only [List.getD_cons_succ]
          refine Prod.ext ?_ rfl
          simp
          omega
        · simp only [List.getD_cons_succ]
          exact hlt
        · intro m hm
          cases m with
          | zero =>
            simp only [List.getD_cons_succ, List.getD_cons_zero]
            exact le_trans (le_of_not_lt hx) (le_of_lt hlt)
          | succ m =>
            simp only [List.getD_cons_succ]
            exact hmax m (by simpa using hm)
        · intro m hm
          cases m with
          | zero =>
            simp only [List.getD_cons_succ, List.getD_cons_zero]
            exact lt_of_le_of_lt (le_of_not_lt hx) hlt
          | succ m =>
            simp only [List.getD_cons_succ]
            exact hfirst m (by omega)

/-- `argmaxIdx` is in range, attains the maximum, and every earlier
element is strictly smaller (first-occurrence tie-break). -/
theorem argmaxIdx_spec {α : Type} [LinearOrder α] (d : α) (l : List α)
    (hl : l ≠ []) :
    argmaxIdx l < l.length ∧
    (∀ m, m < l.length → l.getD m d ≤ l.getD (argmaxIdx l) d) ∧
    (∀ m, m < argmaxIdx l → l.getD m d < l.getD (argmaxIdx l) d) := by
  cases l with
  | nil => exact absurd rfl hl
  | cons x xs =>
    rcases argmaxGo_spec d xs 1 0 x with ⟨heq, hall⟩ |
      ⟨k, hk, heq, hlt, hmax, hfirst⟩
    · have hidx : argmaxIdx (x :: xs) = 0 := by
        simp [argmaxIdx, heq]
      rw [hidx]
      refine ⟨by simp, ?_, ?_⟩
      · intro m hm
        cases m with
        | zero => simp
        | succ m =>
          simp only [List.getD_cons_succ, List.getD_cons_zero]
          exact hall m (by simpa using hm)
      · intro m hm
        omega
    · have hidx : argmaxIdx (x :: xs) = k + 1 := by
        simp only [argmaxIdx, heq]
        omega
      rw [hidx]
      refine ⟨by simpa using hk, ?_, ?_⟩
      · intro m hm
        cases m with
        | zero =>
          simp only [List.getD_cons_succ, List.getD_cons_zero]
          exact le_of_lt hlt
        | succ m =>
          simp only [List.getD_cons_succ]
          exact hmax m (by simpa using hm)
      · intro m hm
        cases m with
        | zero =>
          simp only [List.getD_cons_succ, List.getD_cons_zero]
          exact hlt
        | succ m =>
          simp only [List.getD_cons_succ]
          exact hfirst m (by omega)

/-- A position that attains the maximum and strictly dominates every
earlier position is the `argmaxIdx`. -/
theorem argmaxIdx_eq_of {α : Type} [LinearOrder α] (d : α) (l : List α)
    (n : ℕ) (hn : n < l.length)
    (hmax : ∀ m, m < l.length → l.getD m d ≤ l.getD n d)
    (hfirst : ∀ m, m < n → l.getD m d < l.getD n d) :
    argmaxIdx l = n := by
  have hne : l ≠ [] := by
    intro h
    rw [h] at hn
    simp at hn
  obtain ⟨h1, h2, h3⟩ := argmaxIdx_spec d l hne
  rcases lt_trichotomy (argmaxIdx l) n with h | h | h
  · exact absurd (lt_of_lt_of_le (hfirst _ h) (h2 n hn)) (lt_irrefl _)
  · exact h
  · exact absurd (lt_of_lt_of_le (h3 n h) (hmax _ h1)) (lt_irrefl _)

/-! ## Properties of the key estimator -/

/-- The interleaved score list is the table of `specScore` over the 24
candidates. -/
theorem correlations_eq_ofFn (v : Fin 12 → ℚ) :
    correlations v = List.ofFn fun c : Fin 24 => specScore v (c : ℕ) := rfl

theorem correlations_length (v : Fin 12 → ℚ) :
    (correlations v).length = 24 := by
  rw [correlations_eq_ofFn]
  simp

theorem correlations_getD (v : Fin 12 → ℚ) (m : ℕ) (hm : m < 24) :
    (correlations v).getD m 0 = specScore v m := by
  rw [correlations_eq_ofFn]
  rw [List.getD_eq_getElem _ _ (by simpa using hm)]
  rw [List.getElem_ofFn]

theorem estimate_key_eq (cf : Chromagram) :
    estimate_key cf =
      pitches.getD (argmaxIdx (correlations (chromaSum cf)) / 2) "" ++ " " ++
        (if argmaxIdx (correlations (chromaSum cf)) % 2 = 0 then "Major"
         else "Minor") := rfl

theorem covQ_self_nonneg (x : Fin 12 → ℚ) : 0 ≤ covQ x x := by
  unfold covQ
  exact div_nonneg (Finset.sum_nonneg fun j _ => mul_self_nonneg _)
    (by norm_num)

theorem eq_meanQ_of_covQ_self_eq_zero (x : Fin 12 → ℚ)
    (h : covQ x x = 0) : ∀ j, x j = meanQ x := by
  unfold covQ at h
  rcases div_eq_zero_iff.mp h with h | h
  · have hall := (Finset.sum_eq_zero_iff_of_nonneg
      (fun j _ => mul_self_nonneg (x j - meanQ x))).mp h
    intro j
    have hj := hall j (Finset.mem_univ j)
    have := mul_self_eq_zero.mp hj
    linarith
  · norm_num at h

theorem covQ_eq_zero_left (x y : Fin 12 → ℚ) (h : ∀ j, x j = meanQ x) :
    covQ x y = 0 := by
  unfold covQ
  rw [Finset.sum_eq_zero fun j _ => by rw [h j]; ring]
  norm_num

theorem roll_zero (p : Fin 12 → ℚ) : roll p 0 = p := by
  funext j
  simp [roll]

theorem roll_roll (p : Fin 12 → ℚ) (i k : ℕ) :
    roll (roll p i) k = roll p (i + k) := by
  funext j
  show p (j - (k : Fin 12) - (i : Fin 12)) = p (j - ((i + k : ℕ) : Fin 12))
  congr 1
  push_cast
  ring

theorem roll_mod (p : Fin 12 → ℚ) (i : ℕ) : roll p i = roll p (i % 12) := by
  funext j
  show p (j - (i : Fin 12)) = p (j - ((i % 12 : ℕ) : Fin 12))
  congr 2
  apply Fin.ext
  rw [Fin.val_natCast, Fin.val_natCast]
  omega

theorem meanQ_roll (x : Fin 12 → ℚ) (k : ℕ) : meanQ (roll x k) = meanQ x := by
  unfold meanQ
  congr 1
  exact Equiv.sum_comp (Equiv.subRight ((k : ℕ) : Fin 12)) x

theorem covQ_roll (x y : Fin 12 → ℚ) (k : ℕ) :
    covQ (roll x k) (roll y k) = covQ x y := by
  unfold covQ
  rw [meanQ_roll, meanQ_roll]
  congr 1
  exact Equiv.sum_comp (Equiv.subRight ((k : ℕ) : Fin 12))
    (fun t => (x t - meanQ x) * (y t - meanQ y))

theorem corrcoef_roll (x y : Fin 12 → ℚ) (k : ℕ) :
    corrcoef (roll x k) (roll y k) = corrcoef x y := by
  unfold corrcoef
  rw [covQ_roll, covQ_roll, covQ_roll]

/-- The minor profile is exactly the major profile rolled by 3 (a natural
minor scale shares its pitch-class set with its relative major). -/
theorem minor_eq_roll_major : minor_profile = roll major_profile 3 := by
  funext j
  revert j
  decide

theorem covQ_major_self : covQ major_profile major_profile = 35 / 132 := by
  norm_num [covQ, meanQ, major_profile, Fin.sum_univ_succ]

theorem covQ_roll_major_self (i : ℕ) :
    covQ (roll major_profile i) (roll major_profile i) = 35 / 132 := by
  rw [covQ_roll, covQ_major_self]

theorem specScore_eq_setScore (v : Fin 12 → ℚ) (m : ℕ) :
    specScore v m = setScore v (setIdx m) := by
  unfold specScore setScore setIdx
  by_cases h : m % 2 = 0
  · rw [if_pos h, if_pos h]
  · rw [if_neg h, if_neg h, minor_eq_roll_major, roll_roll, roll_mod]
    have harith : (3 + m / 2) % 12 = (m / 2 + 3) % 12 := by omega
    rw [harith]

theorem setScore_roll (v : Fin 12 → ℚ) (k i : ℕ) :
    setScore (roll v k) ((i + k) % 12) = setScore v i := by
  unfold setScore
  rw [← roll_mod, ← roll_roll]
  exact corrcoef_roll v (roll major_profile i) k

theorem setIdx_lt_12 (m : ℕ) (hm : m < 24) : setIdx m < 12 := by
  unfold setIdx
  split <;> omega

theorem keyIdxOfSet_lt (i : ℕ) (hi : i < 12) : keyIdxOfSet i < 24 := by
  unfold keyIdxOfSet
  split <;> omega

theorem setIdx_keyIdxOfSet (i : ℕ) (hi : i < 12) :
    setIdx (keyIdxOfSet i) = i := by
  by_cases h3 : i < 3
  · rw [keyIdxOfSet, if_pos h3, setIdx, if_pos (by omega)]
    omega
  · rw [keyIdxOfSet, if_neg h3, setIdx, if_neg (by omega)]
    omega

/-- Among the interleaved candidates, the first one using the diatonic set
rooted at `i` is `keyIdxOfSet i`: earlier candidates use other sets. -/
theorem setIdx_ne_of_lt_keyIdx (i m : ℕ) (hi : i < 12)
    (hm : m < keyIdxOfSet i) : setIdx m ≠ i := by
  intro hEq
  unfold setIdx at hEq
  unfold keyIdxOfSet at hm
  by_cases hp : m % 2 = 0
  · rw [if_pos hp] at hEq
    by_cases h3 : i < 3
    · rw [if_pos h3] at hm
      omega
    · rw [if_neg h3] at hm
      omega
  · rw [if_neg hp] at hEq
    by_cases h3 : i < 3
    · rw [if_pos h3] at hm
      omega
    · rw [if_neg h3] at hm
      omega

/-- When one diatonic set strictly dominates all others, `np.argmax` over
the 24 interleaved scores lands on the first candidate carrying that set
(the pair of relative major and minor candidates always ties). -/
theorem argmaxIdx_correlations_of_unique (v : Fin 12 → ℚ) (i₀ : ℕ)
    (h₀ : i₀ < 12)
    (huniq : ∀ i, i < 12 → i ≠ i₀ → setScore v i < setScore v i₀) :
    argmaxIdx (correlations v) = keyIdxOfSet i₀ := by
  have hklt : keyIdxOfSet i₀ < 24 := keyIdxOfSet_lt i₀ h₀
  have hkey : (correlations v).getD (keyIdxOfSet i₀) 0 = setScore v i₀ := by
    rw [correlations_getD v _ hklt, specScore_eq_setScore,
      setIdx_keyIdxOfSet i₀ h₀]
  apply argmaxIdx_eq_of (0 : ℝ)
  · rw [correlations_length]
    exact hklt
  · intro m hm
    rw [correlations_length] at hm
    rw [hkey, correlations_getD v m hm, specScore_eq_setScore]
    by_cases he : setIdx m = i₀
    · rw [he]
    · exact le_of_lt (huniq _ (setIdx_lt_12 m hm) he)
  · intro m hm
    rw [hkey, correlations_getD v m (lt_trans hm hklt),
      specScore_eq_setScore]
    exact huniq _ (setIdx_lt_12 m (lt_trans hm hklt))
      (setIdx_ne_of_lt_keyIdx i₀ m h₀ hm)

/-- Rolling the aggregate vector by `k` transports a uniquely dominating
diatonic set from root `i₀` to root `(i₀ + k) % 12`. -/
theorem huniq_roll (v : Fin 12 → ℚ) (k i₀ : ℕ) (hk : k < 12) (_h₀ : i₀ < 12)
    (huniq : ∀ i, i < 12 → i ≠ i₀ → setScore v i < setScore v i₀) :
    ∀ i, i < 12 → i ≠ (i₀ + k) % 12 →
      setScore (roll v k) i < setScore (roll v k) ((i₀ + k) % 12) := by
  intro i hi hne
  have hjk : ((i + 12 - k) % 12 + k) % 12 = i := by omega
  rw [← hjk, setScore_roll, setScore_roll]
  refine huniq _ (by omega) ?_
  intro hEq
  exact hne (by omega)

/-- Comparisons between correlation scores of `v` against profiles of equal
positive variance reduce, for `v` of positive variance, to comparisons of
the covariances. -/
theorem corrcoef_lt_corrcoef (v p q : Fin 12 → ℚ) (hv : 0 < covQ v v)
    (hpq : covQ p p = covQ q q) (hq : 0 < covQ q q)
    (hlt : covQ v p < covQ v q) : corrcoef v p < corrcoef v q := by
  unfold corrcoef
  rw [hpq]
  have hD : 0 < Real.sqrt (covQ v v) * Real.sqrt (covQ q q) :=
    mul_pos (Real.sqrt_pos.mpr (by exact_mod_cast hv))
      (Real.sqrt_pos.mpr (by exact_mod_cast hq))
  exact div_lt_div_of_pos_right (by exact_mod_cast hlt) hD

theorem roll_major_1 :
    roll major_profile 1 = ![1, 1, 0, 1, 0, 1, 1, 0, 1, 0, 1, 0] := by
  funext j
  revert j
  decide

theorem roll_major_2 :
    roll major_profile 2 = ![0, 1, 1, 0, 1, 0, 1, 1, 0, 1, 0, 1] := by
  funext j
  revert j
  decide

theorem roll_major_3 :
    roll major_profile 3 = ![1, 0, 1, 1, 0, 1, 0, 1, 1, 0, 1, 0] := by
  funext j
  revert j
  decide

theorem roll_major_4 :
    roll major_profile 4 = ![0, 1, 0, 1, 1, 0, 1, 0, 1, 1, 0, 1] := by
  funext j
  revert j
  decide

theorem roll_major_5 :
    roll major_profile 5 = ![1, 0, 1, 0, 1, 1, 0, 1, 0, 1, 1, 0] := by
  funext j
  revert j
  decide

theorem roll_major_6 :
    roll major_profile 6 = ![0, 1, 0, 1, 0, 1, 1, 0, 1, 0, 1, 1] := by
  funext j
  revert j
  decide

theorem roll_major_7 :
    roll major_profile 7 = ![1, 0, 1, 0, 1, 0, 1, 1, 0, 1, 0, 1] := by
  funext j
  revert j
  decide

theorem roll_major_8 :
    roll major_profile 8 = ![1, 1, 0, 1, 0, 1, 0, 1, 1, 0, 1, 0] := by
  funext j
  revert j
  decide

theorem roll_major_9 :
    roll major_profile 9 = ![0, 1, 1, 0, 1, 0, 1, 0, 1, 1, 0, 1] := by
  funext j
  revert j
  decide

theorem roll_major_10 :
    roll major_profile 10 = ![1, 0, 1, 1, 0, 1, 0, 1, 0, 1, 1, 0] := by
  funext j
  revert j
  decide

theorem roll_major_11 :
    roll major_profile 11 = ![0, 1, 0, 1, 1, 0, 1, 0, 1, 0, 1, 1] := by
  funext j
  revert j
  decide

/-- The C major profile correlates strictly better with itself than with
any of its eleven nontrivial rotations. -/
theorem cov_lt_major : ∀ i, i < 12 → i ≠ 0 →
    covQ major_profile (roll major_profile i) <
      covQ major_profile major_profile := by
  intro i hi hne
  rw [covQ_major_self]
  interval_cases i
  · exact absurd rfl hne
  · rw [roll_major_1]
    norm_num [covQ, meanQ, major_profile, Fin.sum_univ_succ]
  · rw [roll_major_2]
    norm_num [covQ, meanQ, major_profile, Fin.sum_univ_succ]
  · rw [roll_major_3]
    norm_num [covQ, meanQ, major_profile, Fin.sum_univ_succ]
  · rw [roll_major_4]
    norm_num [covQ, meanQ, major_profile, Fin.sum_univ_succ]
  · rw [roll_major_5]
    norm_num [covQ, meanQ, major_profile, Fin.sum_univ_succ]
  · rw [roll_major_6]
    norm_num [covQ, meanQ, major_profile, Fin.sum_univ_succ]
  · rw [roll_major_7]
    norm_num [covQ, meanQ, major_profile, Fin.sum_univ_succ]
  · rw [roll_major_8]
    norm_num [covQ, meanQ, major_profile, Fin.sum_univ_succ]
  · rw [roll_major_9]
    norm_num [covQ, meanQ, major_profile, Fin.sum_univ_succ]
  · rw [roll_major_10]
    norm_num [covQ, meanQ, major_profile, Fin.sum_univ_succ]
  · rw [roll_major_11]
    norm_num [covQ, meanQ, major_profile, Fin.sum_univ_succ]

/-- The diatonic set rooted at 0 uniquely dominates for the aggregate
vector equal to the C major profile itself. -/
theorem huniq_major : ∀ i, i < 12 → i ≠ 0 →
    setScore major_profile i < setScore major_profile 0 := by
  intro i hi hne
  unfold setScore
  rw [roll_zero]
  apply corrcoef_lt_corrcoef
  · rw [covQ_major_self]
    norm_num
  · rw [covQ_roll_major_self, covQ_major_self]
  · rw [covQ_major_self]
    norm_num
  · exact cov_lt_major i hi hne

/-- Claim C1 (confirmed).  For every chromagram the estimator scores
exactly 24 candidates; the score list matches, entry by entry, the Pearson
correlations of the time-summed aggregate against the rolled major and
minor profiles in the interleaved order major(0), minor(0), major(1),
minor(1), ...; the selected index attains the maximum and strictly exceeds
every earlier score (first-occurrence tie-break); and the returned key is
`pitches[index / 2]` with mode Major for even and Minor for odd index. -/
theorem C1_key_estimator_structure (cf : Chromagram) :
    (correlations (chromaSum cf)).length = 24 ∧
    argmaxIdx (correlations (chromaSum cf)) < 24 ∧
    (∀ m, m < 24 →
      (correlations (chromaSum cf)).getD m 0 = specScore (chromaSum cf) m) ∧
    (∀ m, m < 24 → (correlations (chromaSum cf)).getD m 0 ≤
      (correlations (chromaSum cf)).getD
        (argmaxIdx (correlations (chromaSum cf))) 0) ∧
    (∀ m, m < argmaxIdx (correlations (chromaSum cf)) →
      (correlations (chromaSum cf)).getD m 0 <
      (correlations (chromaSum cf)).getD
        (argmaxIdx (correlations (chromaSum cf))) 0) ∧
    estimate_key cf =
      pitches.getD (argmaxIdx (correlations (chromaSum cf)) / 2) "" ++ " " ++
        (if argmaxIdx (correlations (chromaSum cf)) % 2 = 0 then "Major"
         else "Minor") := by
  have hne : correlations (chromaSum cf) ≠ [] := by
    intro h
    have hl := correlations_length (chromaSum cf)
    rw [h] at hl
    simp at hl
  obtain ⟨h1, h2, h3⟩ := argmaxIdx_spec (0 : ℝ) (correlations (chromaSum cf)) hne
  simp only [correlations_length] at h1 h2
  exact ⟨correlations_length _, h1, fun m hm => correlations_getD _ m hm,
    h2, h3, rfl⟩

/-- Witness for C1 at the concrete chromagram `constChroma`. -/
theorem C1_witness :
    (correlations (chromaSum constChroma)).length = 24 ∧
    (correlations (chromaSum constChroma)).getD 5 0 =
      specScore (chromaSum constChroma) 5 ∧
    estimate_key constChroma =
      pitches.getD (argmaxIdx (correlations (chromaSum constChroma)) / 2) ""
        ++ " " ++
        (if argmaxIdx (correlations (chromaSum constChroma)) % 2 = 0
         then "Major" else "Minor") :=
  ⟨(C1_key_estimator_structure constChroma).1,
   (C1_key_estimator_structure constChroma).2.2.1 5 (by norm_num),
   (C1_key_estimator_structure constChroma).2.2.2.2.2⟩

/-- With a zero-variance aggregate vector every candidate covariance is
zero, so every modelled score is zero and the estimator returns the first
candidate, C Major. -/
theorem estimate_key_zero_var (cf : Chromagram)
    (h : covQ (chromaSum cf) (chromaSum cf) = 0) :
    estimate_key cf = "C Major" := by
  have hconst := eq_meanQ_of_covQ_self_eq_zero _ h
  have hzero : ∀ m, m < 24 →
      (correlations (chromaSum cf)).getD m 0 = 0 := by
    intro m hm
    rw [correlations_getD _ m hm]
    unfold specScore corrcoef
    split <;> (rw [covQ_eq_zero_left _ _ hconst]; norm_num)
  have hidx : argmaxIdx (correlations (chromaSum cf)) = 0 := by
    apply argmaxIdx_eq_of (0 : ℝ)
    · rw [correlations_length]
      norm_num
    · intro m hm
      rw [correlations_length] at hm
      rw [hzero m hm, hzero 0 (by norm_num)]
    · intro m hm
      omega
  rw [estimate_key_eq, hidx]
  rfl

/-- Claim C4 counterexample.  The chromagram `constChroma` has a constant
aggregate vector (zero variance), yet `estimate_key` returns the definite
key "C Major" rather than any "unknown key" sentinel: the source has no
zero-variance fallback, and `np.argmax` over the all-NaN score list picks
index 0. -/
theorem C4_counterexample :
    covQ (chromaSum constChroma) (chromaSum constChroma) = 0 ∧
    estimate_key constChroma = "C Major" ∧
    estimate_key constChroma ≠ "unknown key" := by
  have h0 : covQ (chromaSum constChroma) (chromaSum constChroma) = 0 := by
    norm_num [covQ, meanQ, chromaSum, constChroma, Fin.sum_univ_succ]
  have hk := estimate_key_zero_var constChroma h0
  refine ⟨h0, hk, ?_⟩
  rw [hk]
  decide

/-- Claim C4 amended.  On any zero-variance aggregate the estimator is
deterministic, but the fallback it realises is the fixed definite answer
"C Major" (the first interleaved candidate), not an "unknown key"
sentinel. -/
theorem C4_amended (cf : Chromagram)
    (h : covQ (chromaSum cf) (chromaSum cf) = 0) :
    estimate_key cf = "C Major" ∧ estimate_key cf ≠ "unknown key" := by
  have hk := estimate_key_zero_var cf h
  refine ⟨hk, ?_⟩
  rw [hk]
  decide

/-- Witness for C4 at the concrete zero-variance chromagram. -/
theorem C4_witness :
    covQ (chromaSum constChroma) (chromaSum constChroma) = 0 ∧
    estimate_key constChroma = "C Major" := by
  have h0 : covQ (chromaSum constChroma) (chromaSum constChroma) = 0 := by
    norm_num [covQ, meanQ, chromaSum, constChroma, Fin.sum_univ_succ]
  exact ⟨h0, (C4_amended constChroma h0).1⟩

/-- Claim C9 counterexample.  For the aggregate vector equal to the
C major profile the estimator picks index 0 (C Major); rolling the
aggregate by 4 semitones makes it pick index 3, i.e. tonic 1 with mode
Minor (C# Minor), not tonic `(0 + 4) % 12 = 4` with mode Major (E Major)
as the claim requires: the relative-minor candidate with the same pitch
classes appears earlier in the interleaved order and wins the tie. -/
theorem C9_counterexample :
    argmaxIdx (correlations major_profile) = 0 ∧
    argmaxIdx (correlations (roll major_profile 4)) = 3 ∧
    ¬ ((3 : ℕ) / 2 = (0 / 2 + 4) % 12 ∧ (3 : ℕ) % 2 = 0 % 2) := by
  refine ⟨?_, ?_, by decide⟩
  · have h := argmaxIdx_correlations_of_unique major_profile 0 (by norm_num)
      huniq_major
    simpa [keyIdxOfSet] using h
  · have h4 := argmaxIdx_correlations_of_unique (roll major_profile 4) 4
      (by norm_num)
      (by
        have h := huniq_roll major_profile 4 0 (by norm_num) (by norm_num)
          huniq_major
        simpa using h)
    simpa [keyIdxOfSet] using h4

/-- Claim C9 amended.  Because each major profile coincides with the
profile of its relative minor, the 24 scores tie in relative pairs and a
strict transposition statement only holds at the level of diatonic sets:
if the set rooted at `i₀` uniquely dominates for `v`, then the estimator
selects candidate `keyIdxOfSet i₀` for `v` and candidate
`keyIdxOfSet ((i₀ + k) % 12)` for the rolled vector — the best-matching
set shifts by `k`, while the reported tonic and mode follow the
first-occurrence tie-break between the relative pair (so the literal
"tonic shifts by `k`, mode unchanged" of the claim fails in general). -/
theorem C9_amended (v : Fin 12 → ℚ) (k i₀ : ℕ) (hk : k < 12) (h₀ : i₀ < 12)
    (huniq : ∀ i, i < 12 → i ≠ i₀ → setScore v i < setScore v i₀) :
    argmaxIdx (correlations v) = keyIdxOfSet i₀ ∧
    argmaxIdx (correlations (roll v k)) = keyIdxOfSet ((i₀ + k) % 12) :=
  ⟨argmaxIdx_correlations_of_unique v i₀ h₀ huniq,
   argmaxIdx_correlations_of_unique (roll v k) ((i₀ + k) % 12) (by omega)
     (huniq_roll v k i₀ hk h₀ huniq)⟩

/-- Witness for C9 at the concrete vector `major_profile` with `k = 4`. -/
theorem C9_witness :
    argmaxIdx (correlations major_profile) = keyIdxOfSet 0 ∧
    argmaxIdx (correlations (roll major_profile 4)) =
      keyIdxOfSet ((0 + 4) % 12) :=
  C9_amended major_profile 4 0 (by norm_num) (by norm_num) huniq_major

/-! ## Properties of the time-signature estimator -/

/-- A Python slice is the filter of the index range by its bounds. -/
theorem pySlice_eq_filter (l : List ℚ) :
    ∀ a b : ℕ, pySlice l a b =
      ((List.range l.length).filter fun i =>
        decide (a ≤ i) && decide (i < b)).map fun i => l.getD i 0 := by
  induction l with
  | nil =>
    intro a b
    simp [pySlice]
  | cons x xs ih =>
    intro a b
    have hcomp : ((fun i => decide (a ≤ i) && decide (i < b)) ∘ Nat.succ) =
        fun i => decide (a - 1 ≤ i) && decide (i < b - 1) := by
      funext i
      simp only [Function.comp]
      congr 1 <;> rw [decide_eq_decide] <;> omega
    rw [List.length_cons, List.range_succ_eq_map, List.filter_cons,
      List.map_filter, hcomp]
    cases a with
    | zero =>
      cases b with
      | zero =>
        rw [if_neg (by simp)]
        rw [List.map_map]
        have hg : ((fun i => (x :: xs).getD i 0) ∘ Nat.succ) =
            fun i => xs.getD i 0 := by
          funext i
          simp
        rw [hg]
        simp only [Nat.zero_sub]
        rw [← ih 0 0]
        simp [pySlice]
      | succ b' =>
        rw [if_pos (by simp)]
        rw [List.map_cons, List.map_map]
        have hg : ((fun i => (x :: xs).getD i 0) ∘ Nat.succ) =
            fun i => xs.getD i 0 := by
          funext i
          simp
        rw [hg]
        simp only [Nat.zero_sub, Nat.add_sub_cancel]
        rw [← ih 0 b']
        simp [pySlice]
    | succ a' =>
      rw [if_neg (by simp)]
      rw [List.map_map]
      have hg : ((fun i => (x :: xs).getD i 0) ∘ Nat.succ) =
          fun i => xs.getD i 0 := by
        funext i
        simp
      rw [hg]
      have ha : a' + 1 - 1 = a' := by omega
      rw [ha, ← ih a' (b - 1)]
      simp only [pySlice, List.drop_succ_cons]
      have hb : b - (a' + 1) = b - 1 - a' := by omega
      rw [hb]

/-- Claim C5 amended.  Each beat strength is the mean over the half-open
window of frames `i` with `bf - 2 ≤ i < bf + 2` (clamped to the envelope):
the Python slice excludes its right endpoint, so the window is
`bf - 2 .. bf + 1`, not the symmetric `bf - 2 .. bf + 2`. -/
theorem C5_amended (onset_strength : List ℚ) (beat_frame : ℕ) :
    beatStrength onset_strength beat_frame =
      specBeatStrengthHalf onset_strength beat_frame := by
  unfold beatStrength specBeatStrengthHalf
  rw [pySlice_eq_filter]
  have hf : ((List.range onset_strength.length).filter fun i =>
        decide (beat_frame - 2 ≤ i) &&
          decide (i < min onset_strength.length (beat_frame + 2))) =
      (List.range onset_strength.length).filter fun i =>
        decide (beat_frame - 2 ≤ i) && decide (i < beat_frame + 2) := by
    apply List.filter_congr
    intro i hi
    rw [List.mem_range] at hi
    congr 1
    rw [decide_eq_decide]
    omega
  rw [hf]

/-- Claim C5 counterexample.  For the envelope `[0, 0, 0, 0, 100]` and a
beat at frame 2, the code window (frames 0..3) has mean 0, while the
symmetric window of the claim (frames 0..4) has mean 20. -/
theorem C5_counterexample :
    beatStrength rampOnset 2 = 0 ∧ specBeatStrength rampOnset 2 = 20 ∧
    beatStrength rampOnset 2 ≠ specBeatStrength rampOnset 2 := by
  have h1 : beatStrength rampOnset 2 = 0 := by
    norm_num [beatStrength, rampOnset, pySlice, pymean]
  have h2 : specBeatStrength rampOnset 2 = 20 := by
    norm_num [specBeatStrength, rampOnset, pymean,
      show List.range 5 = [0, 1, 2, 3, 4] from rfl]
  refine ⟨h1, h2, ?_⟩
  rw [h1, h2]
  norm_num

/-- The meter fold of the source equals the amended selection rule: the
first candidate attaining the largest gap when that gap is strictly
positive, the default meter 4 otherwise. -/
theorem select_meter_eq (bs : List ℚ) :
    ([2, 3, 4].foldl
      (fun acc meter =>
        if acc.2 < gapAt bs meter then (meter, gapAt bs meter) else acc)
      ((4 : ℕ), (0 : ℚ))).1 = claimMeterAmended bs := by
  unfold claimMeterAmended claimMeter
  simp only [List.foldl, argmaxIdx, argmaxGo]
  set g2 := gapAt bs 2 with hg2
  set g3 := gapAt bs 3 with hg3
  set g4 := gapAt bs 4 with hg4
  split_ifs <;> simp_all [lt_max_iff, not_or] <;>
    first
    | linarith
    | (casesm* _ ∨ _ <;> linarith)

/-- With at least 2 beat intervals and at least 4 scored beats, the
estimator reports the amended meter selection. -/
theorem estimate_time_signature_meters (onset_strength : List ℚ)
    (beats : List ℕ) (h2 : 2 ≤ (npdiff beats).length)
    (h4 : 4 ≤ (beats.map fun bf => beatStrength onset_strength bf).length) :
    estimate_time_signature true onset_strength beats =
      toString (claimMeterAmended
        (beats.map fun bf => beatStrength onset_strength bf)) ++ "/4" := by
  simp only [estimate_time_signature]
  rw [if_pos trivial, if_neg (by omega), if_neg (by omega), select_meter_eq]

/-- With at least 2 beat intervals and fewer than 4 scored beats, the
estimator returns the default string. -/
theorem estimate_time_signature_default (onset_strength : List ℚ)
    (beats : List ℕ) (h2 : 2 ≤ (npdiff beats).length)
    (h4 : (beats.map fun bf => beatStrength onset_strength bf).length < 4) :
    estimate_time_signature true onset_strength beats = "4/4" := by
  simp only [estimate_time_signature]
  rw [if_pos trivial, if_neg (by omega), if_pos h4]

/-- The beat strengths of the flat envelope at beats 0, 1, 2, 3. -/
theorem flat_strengths :
    [0, 1, 2, 3].map (fun bf => beatStrength flatOnset bf) =
      [1, 1, 1, 1] := by
  norm_num [beatStrength, flatOnset, pySlice, pymean]

theorem flat_gap_2 : gapAt ([1, 1, 1, 1] : List ℚ) 2 = 0 := by
  norm_num [gapAt, pymean, show List.range 4 = [0, 1, 2, 3] from rfl]

theorem flat_gap_3 : gapAt ([1, 1, 1, 1] : List ℚ) 3 = 0 := by
  norm_num [gapAt, pymean, show List.range 4 = [0, 1, 2, 3] from rfl]

theorem flat_gap_4 : gapAt ([1, 1, 1, 1] : List ℚ) 4 = 0 := by
  norm_num [gapAt, pymean, show List.range 4 = [0, 1, 2, 3] from rfl]

/-- Claim C3 counterexample.  With a constant onset envelope all three
gaps are 0, a three-way tie: the claimed rule (largest gap, earliest
candidate on ties) selects meter 2, but the code keeps the default and
returns "4/4", because its running maximum starts at 0 and only a
strictly positive gap can displace it. -/
theorem C3_counterexample :
    estimate_time_signature true flatOnset [0, 1, 2, 3] = "4/4" ∧
    toString (claimMeter
      ([0, 1, 2, 3].map fun bf => beatStrength flatOnset bf)) ++ "/4" =
      "2/4" := by
  have h := estimate_time_signature_meters flatOnset [0, 1, 2, 3]
    (by norm_num [npdiff]) (by norm_num)
  rw [flat_strengths] at h
  have hcm : claimMeterAmended ([1, 1, 1, 1] : List ℚ) = 4 := by
    unfold claimMeterAmended
    rw [flat_gap_2, flat_gap_3, flat_gap_4]
    norm_num
  have hcm2 : claimMeter ([1, 1, 1, 1] : List ℚ) = 2 := by
    unfold claimMeter
    rw [flat_gap_2, flat_gap_3, flat_gap_4]
    norm_num [argmaxIdx, argmaxGo]
  constructor
  · rw [h, hcm]
    decide
  · rw [flat_strengths, hcm2]
    decide

/-- Claim C3 amended.  With at least 4 scored beats the estimator returns
`"<m>/4"` where `m` is the earliest candidate among 2, 3, 4 attaining the
largest gap when that largest gap is strictly positive, and the default 4
otherwise (the running maximum is initialised to 0, so gap ties at or
below zero keep the default rather than the earliest candidate). -/
theorem C3_amended (onset_strength : List ℚ) (beats : List ℕ)
    (h2 : 2 ≤ (npdiff beats).length)
    (h4 : 4 ≤ (beats.map fun bf => beatStrength onset_strength bf).length) :
    estimate_time_signature true onset_strength beats =
      toString (claimMeterAmended
        (beats.map fun bf => beatStrength onset_strength bf)) ++ "/4" :=
  estimate_time_signature_meters onset_strength beats h2 h4

/-- Witness for C3 at the spike envelope and beats 0, 5, 10, 15. -/
theorem C3_witness :
    2 ≤ (npdiff [0, 5, 10, 15]).length ∧
    4 ≤ ([0, 5, 10, 15].map fun bf => beatStrength spikeOnset bf).length ∧
    estimate_time_signature true spikeOnset [0, 5, 10, 15] =
      toString (claimMeterAmended
        ([0, 5, 10, 15].map fun bf => beatStrength spikeOnset bf)) ++ "/4" :=
  ⟨by norm_num [npdiff], by norm_num,
   C3_amended spikeOnset [0, 5, 10, 15] (by norm_num [npdiff]) (by norm_num)⟩

/-- The beat strengths of the spike envelope at beats 0, 5, 10, 15: the
four windows are disjoint and only the first one carries energy. -/
theorem spike_strengths :
    [0, 5, 10, 15].map (fun bf => beatStrength spikeOnset bf) =
      [4, 0, 0, 0] := by
  norm_num [beatStrength, spikeOnset, pySlice, pymean]

theorem spike_gap_2 : gapAt ([4, 0, 0, 0] : List ℚ) 2 = 2 := by
  norm_num [gapAt, pymean, show List.range 4 = [0, 1, 2, 3] from rfl]

theorem spike_gap_3 : gapAt ([4, 0, 0, 0] : List ℚ) 3 = 2 := by
  norm_num [gapAt, pymean, show List.range 4 = [0, 1, 2, 3] from rfl]

theorem spike_gap_4 : gapAt ([4, 0, 0, 0] : List ℚ) 4 = 4 := by
  norm_num [gapAt, pymean, show List.range 4 = [0, 1, 2, 3] from rfl]

/-- Claim C6 counterexample.  Three beats (fewer than 4 scored) yield the
default "4/4"; four beats whose meter-4 gap is strictly positive and
strictly dominates yield a genuinely measured "4/4".  The two outputs are
the identical string, so the documented default is not distinguishable in
the output from a measured 4/4. -/
theorem C6_counterexample :
    estimate_time_signature true spikeOnset [0, 5, 10] = "4/4" ∧
    estimate_time_signature true spikeOnset [0, 5, 10, 15] = "4/4" ∧
    0 < gapAt ([0, 5, 10, 15].map fun bf => beatStrength spikeOnset bf) 4 ∧
    gapAt ([0, 5, 10, 15].map fun bf => beatStrength spikeOnset bf) 2 <
      gapAt ([0, 5, 10, 15].map fun bf => beatStrength spikeOnset bf) 4 ∧
    gapAt ([0, 5, 10, 15].map fun bf => beatStrength spikeOnset bf) 3 <
      gapAt ([0, 5, 10, 15].map fun bf => beatStrength spikeOnset bf) 4 := by
  refine ⟨?_, ?_, ?_, ?_, ?_⟩
  · exact estimate_time_signature_default spikeOnset [0, 5, 10]
      (by norm_num [npdiff]) (by norm_num)
  · have h := estimate_time_signature_meters spikeOnset [0, 5, 10, 15]
      (by norm_num [npdiff]) (by norm_num)
    rw [spike_strengths] at h
    have hcm : claimMeterAmended ([4, 0, 0, 0] : List ℚ) = 4 := by
      unfold claimMeterAmended claimMeter
      rw [spike_gap_2, spike_gap_3, spike_gap_4]
      norm_num [argmaxIdx, argmaxGo]
    rw [h, hcm]
    decide
  · rw [spike_strengths, spike_gap_4]
    norm_num
  · rw [spike_strengths, spike_gap_2, spike_gap_4]
    norm_num
  · rw [spike_strengths, spike_gap_3, spike_gap_4]
    norm_num

/-- Claim C6 amended.  With at least 2 beat intervals but fewer than 4
scored beats the estimator returns the default "4/4"; this default is the
same string a genuinely measured 4/4 produces, so it is not
distinguishable in the output. -/
theorem C6_amended (onset_strength : List ℚ) (beats : List ℕ)
    (h2 : 2 ≤ (npdiff beats).length)
    (h4 : (beats.map fun bf => beatStrength onset_strength bf).length < 4) :
    estimate_time_signature true onset_strength beats = "4/4" :=
  estimate_time_signature_default onset_strength beats h2 h4

/-- Witness for C6 at the spike envelope and beats 0, 5, 10. -/
theorem C6_witness :
    2 ≤ (npdiff [0, 5, 10]).length ∧
    ([0, 5, 10].map fun bf => beatStrength spikeOnset bf).length < 4 ∧
    estimate_time_signature true spikeOnset [0, 5, 10] = "4/4" :=
  ⟨by norm_num [npdiff], by norm_num,
   C6_amended spikeOnset [0, 5, 10] (by norm_num [npdiff]) (by norm_num)⟩

/-- Claim C7 counterexample.  With two beats (one interval) the estimator
returns the string "N/A", not the string "unknown" named by the claim. -/
theorem C7_counterexample :
    estimate_time_signature true [] [0, 5] = "N/A" ∧
    estimate_time_signature true [] [0, 5] ≠ "unknown" := by
  have h : estimate_time_signature true [] [0, 5] = "N/A" := by
    simp only [estimate_time_signature]
    rw [if_pos trivial, if_pos (by norm_num [npdiff])]
  refine ⟨h, ?_⟩
  rw [h]
  decide

/-- Claim C7 amended.  With fewer than 2 beat intervals the estimator
returns the non-numeric sentinel "N/A" (the sentinel the source spells
"N/A", not "unknown"). -/
theorem C7_amended (onset_strength : List ℚ) (beats : List ℕ)
    (h : (npdiff beats).length < 2) :
    estimate_time_signature true onset_strength beats = "N/A" := by
  simp only [estimate_time_signature]
  rw [if_pos trivial, if_pos h]

/-- Witness for C7 at the two-beat input. -/
theorem C7_witness :
    (npdiff [0, 5]).length < 2 ∧
    estimate_time_signature true [] [0, 5] = "N/A" :=
  ⟨by norm_num [npdiff], C7_amended [] [0, 5] (by norm_num [npdiff])⟩

/-- Claim C10 (confirmed).  Whatever the loaded waveform produces as beat
and onset data, the time-signature estimator returns one of exactly four
strings; as a total function of the library outputs it raises nothing. -/
theorem C10_result_strings (yLoaded : Bool) (onset_strength : List ℚ)
    (beats : List ℕ) :
    estimate_time_signature yLoaded onset_strength beats ∈
      ["N/A", "2/4", "3/4", "4/4"] := by
  cases yLoaded
  · simp [estimate_time_signature]
  · simp only [estimate_time_signature]
    by_cases h2 : (npdiff beats).length < 2
    · rw [if_pos trivial, if_pos h2]
      decide
    · rw [if_pos trivial, if_neg h2]
      by_cases h4 :
          (beats.map fun bf => beatStrength onset_strength bf).length < 4
      · rw [if_pos h4]
        decide
      · rw [if_neg h4]
        simp only [List.foldl]
        split_ifs <;>
          first
          | exact show toString (2 : ℕ) ++ "/4" ∈
              ["N/A", "2/4", "3/4", "4/4"] by decide
          | exact show toString (3 : ℕ) ++ "/4" ∈
              ["N/A", "2/4", "3/4", "4/4"] by decide
          | exact show toString (4 : ℕ) ++ "/4" ∈
              ["N/A", "2/4", "3/4", "4/4"] by decide

/-! ## Properties of the orchestrator -/

/-- Claim C2 counterexample.  On a successful load, `run_analysis` runs
Loader, Tempo, Chroma, TimeSignature — the key-estimation stage is absent
from the sequence, so the claimed stage list (which interposes Key before
TimeSignature, making the completed run include a key estimate) is not the
one executed. -/
theorem C2_counterexample :
    run_analysis_stages true ≠
      [Stage.load, Stage.tempo, Stage.chroma, Stage.key, Stage.timesig] ∧
    Stage.key ∉ run_analysis_stages true := by
  decide

/-- Claim C2 amended.  On a successful load, `run_analysis` executes
Loader, Tempo Estimator, Chroma Extractor and Time-Signature Estimator in
that order, updating the corresponding fields; key estimation is not part
of `run_analysis`: the caller (`analysis_complete` in `main.py`) computes
the key afterwards from the stored chromagram. -/
theorem C2_amended (y : List ℚ) (sr : ℕ) (tempoVal : ℚ) (ch : Chromagram)
    (onset_strength : List ℚ) (beats : List ℕ) :
    run_analysis_stages true =
      [Stage.load, Stage.tempo, Stage.chroma, Stage.timesig] ∧
    Stage.key ∉ run_analysis_stages true ∧
    (run_analysis initState (some (y, sr)) tempoVal ch onset_strength
      beats).bpm = tempoVal ∧
    (run_analysis initState (some (y, sr)) tempoVal ch onset_strength
      beats).chromagram = some ch ∧
    (run_analysis initState (some (y, sr)) tempoVal ch onset_strength
      beats).time_signature =
      estimate_time_signature true onset_strength beats ∧
    analysis_complete_key (run_analysis initState (some (y, sr)) tempoVal ch
      onset_strength beats) = some (estimate_key ch) := by
  refine ⟨rfl, by decide, ?_, ?_, ?_, ?_⟩ <;>
    simp [run_analysis, load_audio, extract_bpm, extract_chromagram,
      initState, analysis_complete_key]

/-- Claim C8 (confirmed).  When `librosa.load` fails, `load_audio` returns
`false`, `run_analysis` runs no later stage and leaves the state exactly
at its initial value (bpm 0, no chromagram, time signature "N/A"), and the
worker surfaces the failure as an error instead of emitting a result. -/
theorem C8_load_failure (tempoVal : ℚ) (ch : Chromagram)
    (onset_strength : List ℚ) (beats : List ℕ) :
    run_analysis initState none tempoVal ch onset_strength beats =
      initState ∧
    (run_analysis initState none tempoVal ch onset_strength beats).bpm =
      0 ∧
    (run_analysis initState none tempoVal ch onset_strength
      beats).chromagram = none ∧
    (run_analysis initState none tempoVal ch onset_strength
      beats).time_signature = "N/A" ∧
    (load_audio initState none).2 = false ∧
    run_analysis_stages false = [Stage.load] ∧
    Stage.tempo ∉ run_analysis_stages false ∧
    Stage.chroma ∉ run_analysis_stages false ∧
    Stage.key ∉ run_analysis_stages false ∧
    Stage.timesig ∉ run_analysis_stages false ∧
    worker_run none tempoVal ch onset_strength beats =
      Except.error "Could not load the audio file." :=
  ⟨rfl, rfl, rfl, rfl, rfl, rfl, by decide, by decide, by decide,
   by decide, rfl⟩
